import Mathlib

/-!
Shallow embedding of the windowed-cache table model and the selection-detail
pipeline of the `pyside6_test` repository.

Reference sources:
* `pyside6_sqlite_million_sample_keyset_threaded.py` — `ChunkLoaderWorker`,
  `SqliteTableModel` (chunk cache, pending set, eviction, dataChanged emission).
* `pyside6_sqlite_million_sample_keyset_thread.py` — `DetailTransformTask`,
  `MainWindow._on_current_row_changed` / `_on_detail_ready` / `_on_detail_failed`
  (generation-tagged detail pipeline).
* `database.py` — `ensure_database` (idempotent batched seeding).

Machine integers in the Python sources are unbounded (`int`), so `Nat`/`Int`
model them exactly.  Python dicts preserve insertion order; `_chunk_cache` is
embedded as an insertion-ordered association list with dict update semantics.
-/

namespace MillionRows

/-- A record of the `texts` table, as fetched by
`SELECT id, value FROM texts`: the `(id, value)` pair. -/
abbrev Record := Nat × String

/-- The `texts` table after seeding: ids are dense (`AUTOINCREMENT`, append-only,
never deleted) starting at `firstId`, one value per id.  Row `i` (0-based) holds
id `firstId + i`. -/
def denseTable (firstId total : Nat) (vals : Nat → String) : List Record :=
  (List.range total).map (fun i => (firstId + i, vals (firstId + i)))

/-- `SELECT id, value FROM texts WHERE id >= ? ORDER BY id LIMIT ?` against a
table held in insertion order: filter by the key bound, sort ascending by id
(`ORDER BY id`), take at most `limit` rows (`LIMIT ?`). -/
def sqlSelectRange (table : List Record) (startId limit : Nat) : List Record :=
  (((table.filter (fun r => decide (startId ≤ r.1))).mergeSort
    (fun a b => decide (a.1 ≤ b.1))).take limit)

/-- `ChunkLoaderWorker.load_chunk(start_row, chunk_size)`:
computes `start_id = self._first_id + start_row`, runs the keyset query and
emits `chunk_loaded(start_row, rows)`.  The emitted signal payload is returned. -/
def load_chunk (table : List Record) (first_id start_row chunk_size : Nat) :
    Nat × List Record :=
  (start_row, sqlSelectRange table (first_id + start_row) chunk_size)

/-- First-match lookup in an insertion-ordered association list
(Python `dict.get`). -/
def dictGet {α : Type} : List (Nat × α) → Nat → Option α
  | [], _ => none
  | (k, v) :: rest, key => if key = k then some v else dictGet rest key

/-- Python `key in dict`. -/
def dictHasKey {α : Type} (d : List (Nat × α)) (k : Nat) : Bool :=
  (dictGet d k).isSome

/-- Python `dict[k] = v`: replaces the value of an existing key in place,
otherwise appends the new key at the end (insertion order preserved). -/
def dictInsert {α : Type} : List (Nat × α) → Nat → α → List (Nat × α)
  | [], k, v => [(k, v)]
  | (k0, v0) :: rest, k, v =>
    if k = k0 then (k0, v) :: rest else (k0, v0) :: dictInsert rest k v

/-- Column headers of `SqliteTableModel`: `self._headers = ["id", "value"]`. -/
def headers : List String := ["id", "value"]

/-- The value of one cell: column 0 holds the integer id, column 1 the string
value (`record[index.column()]` on a `(id, value)` tuple). -/
inductive CellValue : Type where
  | intVal (n : Nat)
  | strVal (s : String)
deriving DecidableEq, Repr

/-- `record[col]` for `record = (id, value)` and `col < 2`. -/
def recordCell (r : Record) (col : Nat) : CellValue :=
  if col = 0 then CellValue.intVal r.1 else CellValue.strVal r.2

/-- The arguments of a `dataChanged.emit(top_left, bottom_right, [DisplayRole])`
emission: `top_left = index(start, 0)`, `bottom_right = index(end, 1)`. -/
structure DataChangedEmission : Type where
  top_row : Nat
  bottom_row : Nat
  left_column : Nat
  right_column : Nat
deriving DecidableEq, Repr

/-- The mutable state of `SqliteTableModel`
(`pyside6_sqlite_million_sample_keyset_threaded.py`), plus the trace of
`request_chunk` signal emissions sent to the worker. -/
structure ModelState : Type where
  /-- `self._row_count` (snapshot of `SELECT COUNT(*)`). -/
  row_count : Nat
  /-- `self._first_id` (snapshot of `SELECT MIN(id)`, 1 when the table is empty). -/
  first_id : Nat
  /-- `self._chunk_cache : dict[int, list[tuple[int, str]]]`, insertion ordered. -/
  chunk_cache : List (Nat × List Record)
  /-- `self._pending_chunks : set[int]`. -/
  pending_chunks : List Nat
  /-- `self._cache_size = 1000`. -/
  cache_size : Nat
  /-- `self._max_cached_chunks = 8`. -/
  max_cached_chunks : Nat
  /-- Trace of `self.request_chunk.emit(chunk_start, self._cache_size)` calls. -/
  requests : List (Nat × Nat)
deriving DecidableEq, Repr

/-- `chunk_start = (row // self._cache_size) * self._cache_size`. -/
def chunk_start_of (cache_size row : Nat) : Nat :=
  row / cache_size * cache_size

/-- `SqliteTableModel._request_chunk(chunk_start)`: no-op when the chunk is
already pending or cached, or out of range (`chunk_start < 0` cannot occur for
`Nat`); otherwise marks pending and emits `request_chunk(chunk_start,
self._cache_size)`. -/
def request_chunk (s : ModelState) (chunk_start : Nat) : ModelState :=
  if chunk_start ∈ s.pending_chunks ∨ dictHasKey s.chunk_cache chunk_start then s
  else if s.row_count ≤ chunk_start then s
  else { s with
    pending_chunks := chunk_start :: s.pending_chunks,
    requests := s.requests ++ [(chunk_start, s.cache_size)] }

/-- `SqliteTableModel.data(index, DisplayRole)` at `(row, col)`, returning the
cell value and the possibly updated state.

Indexes reaching `data` are built by `model.index(row, col)` / the attached
view, so `index.isValid()` holds exactly when `row < rowCount` and
`col < columnCount` (Qt `QAbstractItemModel.hasIndex`); an invalid index fails
the first guard and yields `None`.  Only the `DisplayRole` path is modelled
(other roles return `None` at the same guard).

On the cached path, `offset = row - chunk_start` is guarded by
`offset < 0 or offset >= len(rows)`; `chunk_start ≤ row` always holds
(`chunk_start = row / cache_size * cache_size`), so the `offset < 0` arm never
fires and `Nat` subtraction is exact here. -/
def data (s : ModelState) (row col : Nat) : Option CellValue × ModelState :=
  if s.row_count ≤ row ∨ 2 ≤ col then (none, s)
  else
    let chunk_start := chunk_start_of s.cache_size row
    match dictGet s.chunk_cache chunk_start with
    | none => (none, request_chunk s chunk_start)
    | some rows =>
      let offset := row - chunk_start
      if h : rows.length ≤ offset then (none, s)
      else (some (recordCell (rows.get ⟨offset, by omega⟩) col), s)

/-- The `while len(self._chunk_cache) > self._max_cached_chunks:` eviction loop
of `_on_chunk_loaded`: repeatedly deletes the oldest-inserted chunk
(`next(iter(self._chunk_cache))` — the head of the insertion-ordered dict),
breaking if the oldest is the chunk just loaded. -/
def evict_loop (max_chunks chunk_start : Nat) :
    List (Nat × List Record) → List (Nat × List Record)
  | [] => []
  | (k, v) :: rest =>
    if max_chunks < ((k, v) :: rest).length then
      if k = chunk_start then (k, v) :: rest
      else evict_loop max_chunks chunk_start rest
    else (k, v) :: rest

/-- `SqliteTableModel._on_chunk_loaded(chunk_start, rows)`: discards the
pending mark, stores the rows in the cache, runs the eviction loop, then (for a
non-empty chunk) emits `dataChanged` over rows
`[chunk_start, min(chunk_start + len(rows) - 1, row_count - 1)]` and columns
`[0, len(headers) - 1]`.  Returns the new state and the emission, if any. -/
def on_chunk_loaded (s : ModelState) (chunk_start : Nat) (rows : List Record) :
    ModelState × Option DataChangedEmission :=
  let cache1 := dictInsert s.chunk_cache chunk_start rows
  let cache2 := evict_loop s.max_cached_chunks chunk_start cache1
  let s2 := { s with
    pending_chunks := s.pending_chunks.erase chunk_start,
    chunk_cache := cache2 }
  let emission :=
    if rows.isEmpty then none
    else some ⟨chunk_start, min (chunk_start + rows.length - 1) (s.row_count - 1),
               0, headers.length - 1⟩
  (s2, emission)

/-- Applies a sequence of fetch completions, each window `w` delivering
`rowsOf w` (the same rows for the same window, whatever the order). -/
def complete_all (rowsOf : Nat → List Record) :
    ModelState → List Nat → ModelState
  | s, [] => s
  | s, w :: ws => complete_all rowsOf (on_chunk_loaded s w (rowsOf w)).1 ws

/-!
### Selection-detail pipeline
(`pyside6_sqlite_million_sample_keyset_thread.py`: `DetailTransformTask`,
`MainWindow._on_current_row_changed`, `_on_detail_ready`, `_on_detail_failed`).
-/

/-- Outcome of one call of `self._transform_fn(row_id, row_value)`
(`MainWindow.transform_detail_data` or an override): it returns a display
string, raises `NotImplementedError`, or raises some other exception carrying
message `message`. -/
inductive TransformOutcome : Type where
  | ok (display_value : String)
  | notImplemented
  | err (message : String)
deriving DecidableEq, Repr

/-- A signal emitted by `DetailTransformTask` through `DetailTransformSignals`:
`finished(request_id, display_value)` or `failed(request_id, error_message)`. -/
inductive DetailSignal : Type where
  | finished (request_id : Nat) (display_value : String)
  | failed (request_id : Nat) (error_message : String)
deriving DecidableEq, Repr

/-- `DetailTransformTask.run()`: calls the transform; on
`NotImplementedError` the raw row value becomes the display value; on any other
exception `failed(request_id, str(exc))` is emitted and the task returns;
otherwise `finished(request_id, str(display_value))` is emitted.
`outcome` abstracts what `self._transform_fn(self._row_id, self._row_value)`
does. -/
def task_run (request_id : Nat) (row_value : String)
    (outcome : TransformOutcome) : DetailSignal :=
  match outcome with
  | .ok v => .finished request_id v
  | .notImplemented => .finished request_id row_value
  | .err m => .failed request_id m

/-- The detail-pane state of `MainWindow`
(`pyside6_sqlite_million_sample_keyset_thread.py`): the generation counter
`self._detail_request_id` and the text shown in `self.detail_value`. -/
structure DetailUiState : Type where
  detail_request_id : Nat
  detail_text : String
deriving DecidableEq, Repr

/-- What `_on_current_row_changed` finds when it asks the model for the
selected row: the index is invalid, the row data is not loaded yet
(`row_id is None or row_value is None`), or `(row_id, row_value)` is
available. -/
inductive SelectionEvent : Type where
  | invalid
  | loading
  | loaded (row_id : Nat) (row_value : String)
deriving DecidableEq, Repr

/-- `MainWindow._on_current_row_changed(current, previous)`: pre-increments
`self._detail_request_id`; an invalid index clears the detail pane; unloaded
row data returns without spawning work; otherwise a `DetailTransformTask`
tagged with the fresh `request_id` is started
(`self._detail_thread_pool.start(task)`).  The `(request_id, row_id,
row_value)` of the spawned task is returned alongside the state. -/
def on_current_row_changed (s : DetailUiState) (ev : SelectionEvent) :
    DetailUiState × Option (Nat × Nat × String) :=
  let gen := s.detail_request_id + 1
  match ev with
  | .invalid => ({ detail_request_id := gen, detail_text := "" }, none)
  | .loading => ({ s with detail_request_id := gen }, none)
  | .loaded row_id row_value =>
    ({ s with detail_request_id := gen }, some (gen, row_id, row_value))

/-- `MainWindow._on_detail_ready(request_id, display_value)`: a stale
generation tag is discarded, otherwise the display value is shown. -/
def on_detail_ready (s : DetailUiState) (request_id : Nat)
    (display_value : String) : DetailUiState :=
  if request_id ≠ s.detail_request_id then s
  else { s with detail_text := display_value }

/-- The fixed prefix of the error text built by `_on_detail_failed`
(an f-string in the source). -/
def DETAIL_ERROR_PREFIX : String := "詳細表示の処理でエラーが発生しました: "

/-- `MainWindow._on_detail_failed(request_id, error_message)`: a stale
generation tag is discarded, otherwise the user-visible error string is
shown. -/
def on_detail_failed (s : DetailUiState) (request_id : Nat)
    (error_message : String) : DetailUiState :=
  if request_id ≠ s.detail_request_id then s
  else { s with detail_text := DETAIL_ERROR_PREFIX ++ error_message }

/-- Dispatches a `DetailTransformSignals` emission to its connected slot
(`finished → _on_detail_ready`, `failed → _on_detail_failed`). -/
def apply_detail_signal (s : DetailUiState) : DetailSignal → DetailUiState
  | .finished rid v => on_detail_ready s rid v
  | .failed rid m => on_detail_failed s rid m

/-- The display text a completed task outcome should leave in the detail pane
when its generation is still current. -/
def expected_detail_text (row_value : String) : TransformOutcome → String
  | .ok v => v
  | .notImplemented => row_value
  | .err m => DETAIL_ERROR_PREFIX ++ m

/-!
### Seeding (`database.py`: `ensure_database`)

`database.py` imports `BATCH_SIZE` and `TARGET_ROWS` from the `config`
module of the package, which is not in the repository snapshot; the two standalone
scripts in the repository define `BATCH_SIZE = 10_000` and
`TARGET_ROWS = 3_000_000`, and those values are used here.
-/

/-- `BATCH_SIZE = 10_000`. -/
def BATCH_SIZE : Nat := 10000

/-- `TARGET_ROWS = 3_000_000`. -/
def TARGET_ROWS : Nat := 3000000

/-- The `while rows_to_insert > 0` loop of `ensure_database`: each pass inserts
`chunk = min(BATCH_SIZE, rows_to_insert)` freshly generated values
(`random_text()` is abstracted by the stream `supply`, indexed by the final
position of the row) and commits.  Returns the final store contents and the list of
`executemany` batch sizes in order. -/
def seed_loop (supply : Nat → String) (store : List String)
    (rows_to_insert : Nat) : List String × List Nat :=
  if rows_to_insert = 0 then (store, [])
  else
    let chunk := min BATCH_SIZE rows_to_insert
    let values := (List.range chunk).map (fun i => supply (store.length + i))
    let rest := seed_loop supply (store ++ values) (rows_to_insert - chunk)
    (rest.1, chunk :: rest.2)
termination_by rows_to_insert
decreasing_by
  have h1 : 1 ≤ min BATCH_SIZE rows_to_insert := by
    simp only [BATCH_SIZE]
    omega
  omega

/-- `ensure_database(db_path, target_rows)` acting on a store that already
holds `store` (the `texts` rows in insertion order): if
`current_rows >= target_rows` it returns without touching the store; otherwise
it inserts `target_rows - current_rows` rows in batches.  Returns the final
store and the batch-size trace. -/
def ensure_database (supply : Nat → String) (store : List String)
    (target_rows : Nat) : List String × List Nat :=
  if target_rows ≤ store.length then (store, [])
  else seed_loop supply store (target_rows - store.length)

/-!
### Helper lemmas about the embedded dict and the eviction loop
-/

theorem dictGet_dictInsert_self {α : Type} (d : List (Nat × α)) (k : Nat) (v : α) :
    dictGet (dictInsert d k v) k = some v := by
  induction d with
  | nil => simp [dictInsert, dictGet]
  | cons hd tl ih =>
    obtain ⟨k0, v0⟩ := hd
    by_cases hk : k = k0
    · simp [dictInsert, hk, dictGet]
    · simp [dictInsert, hk, dictGet, ih]

theorem dictGet_append {α : Type} (d1 d2 : List (Nat × α)) (k : Nat) :
    dictGet (d1 ++ d2) k = (dictGet d1 k).or (dictGet d2 k) := by
  induction d1 with
  | nil => simp [dictGet]
  | cons hd tl ih =>
    obtain ⟨k0, v0⟩ := hd
    by_cases hk : k = k0
    · simp [dictGet, hk]
    · simp [dictGet, hk, ih]

theorem dictInsert_of_get_none {α : Type} (d : List (Nat × α)) (k : Nat) (v : α)
    (h : dictGet d k = none) : dictInsert d k v = d ++ [(k, v)] := by
  induction d with
  | nil => simp [dictInsert]
  | cons hd tl ih =>
    obtain ⟨k0, v0⟩ := hd
    by_cases hk : k = k0
    · simp [dictGet, hk] at h
    · simp only [dictGet, if_neg hk] at h
      simp [dictInsert, hk, ih h]

theorem length_dictInsert_of_get_some {α : Type} (d : List (Nat × α)) (k : Nat)
    (v w : α) (h : dictGet d k = some w) :
    (dictInsert d k v).length = d.length := by
  induction d with
  | nil => simp [dictGet] at h
  | cons hd tl ih =>
    obtain ⟨k0, v0⟩ := hd
    by_cases hk : k = k0
    · simp [dictInsert, hk]
    · simp only [dictGet, if_neg hk] at h
      simp [dictInsert, hk, ih h]

theorem evict_loop_of_length_le (max_chunks chunk_start : Nat)
    (d : List (Nat × List Record)) (h : d.length ≤ max_chunks) :
    evict_loop max_chunks chunk_start d = d := by
  cases d with
  | nil => simp [evict_loop]
  | cons hd tl =>
    obtain ⟨k, v⟩ := hd
    simp only [evict_loop]
    rw [if_neg (by simp at h ⊢; omega)]

theorem evict_loop_cons_of_length_eq (max_chunks chunk_start : Nat)
    (k : Nat) (v : List Record) (rest : List (Nat × List Record))
    (hlen : rest.length = max_chunks) (hne : k ≠ chunk_start) :
    evict_loop max_chunks chunk_start ((k, v) :: rest) = rest := by
  simp only [evict_loop]
  rw [if_pos (by simp [hlen]), if_neg hne,
    evict_loop_of_length_le max_chunks chunk_start rest (le_of_eq hlen)]

theorem dictHasKey_eq_false_iff {α : Type} (d : List (Nat × α)) (k : Nat) :
    dictHasKey d k = false ↔ dictGet d k = none := by
  simp [dictHasKey, Option.isSome_iff_exists]

/-!
### Claim theorems
-/

/-- **C2.** While a window is pending (or already cached), a further
`get_cell`/`data` call into that window does not enqueue a second fetch:
`_request_chunk` is a no-op on the state (in particular no new
`request_chunk` emission), and so is the state effect of the whole `data`
call. -/
theorem no_duplicate_fetch (s : ModelState) (row col : Nat)
    (h : chunk_start_of s.cache_size row ∈ s.pending_chunks ∨
         dictHasKey s.chunk_cache (chunk_start_of s.cache_size row) = true) :
    request_chunk s (chunk_start_of s.cache_size row) = s ∧
    (data s row col).2 = s := by
  have hreq : request_chunk s (chunk_start_of s.cache_size row) = s := by
    unfold request_chunk
    rw [if_pos h]
  refine ⟨hreq, ?_⟩
  unfold data
  by_cases hvalid : s.row_count ≤ row ∨ 2 ≤ col
  · rw [if_pos hvalid]
  · rw [if_neg hvalid]
    simp only
    cases hc : dictGet s.chunk_cache (chunk_start_of s.cache_size row) with
    | none => simpa using hreq
    | some rows =>
      simp only
      split <;> rfl

/-- Witness for `no_duplicate_fetch`: window `1000` is pending, a `data` call
at row `1500` (inside that window) changes nothing. -/
theorem no_duplicate_fetch_witness :
    request_chunk ⟨3000000, 1, [], [1000], 1000, 8, []⟩ 1000 =
      ⟨3000000, 1, [], [1000], 1000, 8, []⟩ ∧
    (data ⟨3000000, 1, [], [1000], 1000, 8, []⟩ 1500 1).2 =
      ⟨3000000, 1, [], [1000], 1000, 8, []⟩ :=
  no_duplicate_fetch ⟨3000000, 1, [], [1000], 1000, 8, []⟩ 1500 1 (by decide)

/-- **C9 (counterexample).** The claim says an out-of-range position fails
loudly with an assertion.  It does not: on the state below with
`row_count = 5`, requesting position `5` is silently answered with `None`
(the index-validity guard fails) and the state is untouched — `data` is a
total function with no failure channel, there is no `assert` in
`SqliteTableModel.data` or `_request_chunk`. -/
theorem out_of_range_is_silent_none :
    data ⟨5, 1, [], [], 1000, 8, []⟩ 5 1 = (none, ⟨5, 1, [], [], 1000, 8, []⟩) := by
  decide

/-- **C9 (amended).** For every position at or beyond `total_rows`, the cell
request is silently answered with `None` (absent) and leaves the model state
unchanged — no assertion, no clamping, no fetch enqueued. -/
theorem out_of_range_returns_absent (s : ModelState) (row col : Nat)
    (h : s.row_count ≤ row) :
    data s row col = (none, s) := by
  unfold data
  rw [if_pos (Or.inl h)]

/-- Witness for `out_of_range_returns_absent` at position `3000000` of a
3,000,000-row model. -/
theorem out_of_range_returns_absent_witness :
    data ⟨3000000, 1, [], [], 1000, 8, []⟩ 3000000 0 =
      (none, ⟨3000000, 1, [], [], 1000, 8, []⟩) :=
  out_of_range_returns_absent ⟨3000000, 1, [], [], 1000, 8, []⟩ 3000000 0
    (by decide)

/-- **C10.** If the owning window of an in-range position is cached but its
row list is shorter than the window (the short last window), a `data` call
beyond the last loaded row returns `None` rather than indexing out of bounds:
the access is guarded by `0 <= offset < len(rows)`. -/
theorem short_window_returns_absent (s : ModelState) (row col : Nat)
    (rows : List Record)
    (hrow : row < s.row_count) (hcol : col < 2)
    (hcache : dictGet s.chunk_cache (chunk_start_of s.cache_size row) = some rows)
    (hshort : rows.length ≤ row - chunk_start_of s.cache_size row) :
    data s row col = (none, s) := by
  unfold data
  rw [if_neg (by omega)]
  simp only [hcache]
  rw [dif_pos hshort]

/-- Witness for `short_window_returns_absent`: a 2,500-row model whose last
window `2000` is cached with a single row; row `2001` yields `None`. -/
theorem short_window_returns_absent_witness :
    data ⟨2500, 1, [(2000, [(2001, "a")])], [], 1000, 8, []⟩ 2001 1 =
      (none, ⟨2500, 1, [(2000, [(2001, "a")])], [], 1000, 8, []⟩) :=
  short_window_returns_absent ⟨2500, 1, [(2000, [(2001, "a")])], [], 1000, 8, []⟩
    2001 1 [(2001, "a")] (by decide) (by decide) (by decide) (by decide)

/-- **C6.** On a fetch completion delivering a non-empty row list that fits
inside the model (`chunk_start + len(rows) ≤ total_rows`, which every real
fetch satisfies), `_on_chunk_loaded` emits a `dataChanged` notification
covering exactly rows `[chunk_start, chunk_start + len(rows) - 1]` and all
columns `[0, 1]`. -/
theorem notify_range_exact (s : ModelState) (chunk_start : Nat)
    (rows : List Record) (hne : rows ≠ [])
    (hfit : chunk_start + rows.length ≤ s.row_count) :
    (on_chunk_loaded s chunk_start rows).2 =
      some ⟨chunk_start, chunk_start + rows.length - 1, 0, 1⟩ := by
  have hlen : 0 < rows.length := List.length_pos.mpr hne
  have hmin : min (chunk_start + rows.length - 1) (s.row_count - 1) =
      chunk_start + rows.length - 1 := by omega
  unfold on_chunk_loaded
  simp only [List.isEmpty_eq_true, hne, if_false, hmin, headers]
  rfl

/-- Witness for `notify_range_exact`: completing window `1000` with two rows
on a 2,500-row model notifies exactly rows `1000`–`1001`, columns `0`–`1`. -/
theorem notify_range_exact_witness :
    (on_chunk_loaded ⟨2500, 1, [], [1000], 1000, 8, []⟩ 1000
      [(1001, "a"), (1002, "b")]).2 = some ⟨1000, 1001, 0, 1⟩ :=
  notify_range_exact ⟨2500, 1, [], [1000], 1000, 8, []⟩ 1000
    [(1001, "a"), (1002, "b")] (by decide) (by decide)

/-- **C3.** After a fetch completion on a state respecting the capacity bound,
the cache size is again at most `_max_cached_chunks`, the just-completed window
is resident with its delivered rows, and the evicted windows form a prefix of
the insertion-ordered dict (the least-recently-inserted ones) that never
contains the just-inserted window. -/
theorem eviction_bound (s : ModelState) (chunk_start : Nat) (rows : List Record)
    (hlen : s.chunk_cache.length ≤ s.max_cached_chunks)
    (hmax : 1 ≤ s.max_cached_chunks) :
    (on_chunk_loaded s chunk_start rows).1.chunk_cache.length ≤
      s.max_cached_chunks ∧
    dictGet (on_chunk_loaded s chunk_start rows).1.chunk_cache chunk_start =
      some rows ∧
    ∃ dropped,
      dropped ++ (on_chunk_loaded s chunk_start rows).1.chunk_cache =
        dictInsert s.chunk_cache chunk_start rows ∧
      chunk_start ∉ dropped.map Prod.fst := by
  have hcache : (on_chunk_loaded s chunk_start rows).1.chunk_cache =
      evict_loop s.max_cached_chunks chunk_start
        (dictInsert s.chunk_cache chunk_start rows) := rfl
  rw [hcache]
  cases hc : dictGet s.chunk_cache chunk_start with
  | some w =>
    have hl : (dictInsert s.chunk_cache chunk_start rows).length =
        s.chunk_cache.length := length_dictInsert_of_get_some _ _ _ _ hc
    rw [evict_loop_of_length_le _ _ _ (by omega)]
    exact ⟨by omega, dictGet_dictInsert_self _ _ _, [], rfl, by simp⟩
  | none =>
    have hins : dictInsert s.chunk_cache chunk_start rows =
        s.chunk_cache ++ [(chunk_start, rows)] :=
      dictInsert_of_get_none _ _ _ hc
    by_cases hfit : s.chunk_cache.length + 1 ≤ s.max_cached_chunks
    · rw [evict_loop_of_length_le _ _ _ (by rw [hins]; simp; omega)]
      refine ⟨by rw [hins]; simp; omega, ?_, [], rfl, by simp⟩
      rw [hins, dictGet_append, hc]
      simp [dictGet]
    · have hlen_eq : s.chunk_cache.length = s.max_cached_chunks := by omega
      cases hd : s.chunk_cache with
      | nil =>
        rw [hd] at hlen_eq
        simp at hlen_eq
        omega
      | cons p rest =>
        obtain ⟨k0, v0⟩ := p
        have hk0 : ¬ chunk_start = k0 := by
          intro hk
          rw [hd] at hc
          simp [dictGet, hk] at hc
        have hrest : dictGet rest chunk_start = none := by
          rw [hd] at hc
          simpa [dictGet, hk0] using hc
        have hrlen : (rest ++ [(chunk_start, rows)]).length =
            s.max_cached_chunks := by
          rw [hd] at hlen_eq
          simp at hlen_eq ⊢
          omega
        rw [hd] at hins
        rw [hins, List.cons_append,
          evict_loop_cons_of_length_eq _ _ _ _ _ hrlen (fun h => hk0 h.symm)]
        refine ⟨by rw [hrlen], ?_, [(k0, v0)], rfl, by simpa using hk0⟩
        rw [dictGet_append, hrest]
        simp [dictGet]

/-- Witness for `eviction_bound`: a full cache of 8 windows completes window
`8000`; the conclusion of `eviction_bound` holds there. -/
theorem eviction_bound_witness :
    (on_chunk_loaded ⟨3000000, 1, [(0, []), (1000, []), (2000, []), (3000, []),
        (4000, []), (5000, []), (6000, []), (7000, [])], [8000], 1000, 8, []⟩
      8000 [(8001, "x")]).1.chunk_cache.length ≤ 8 ∧
    dictGet (on_chunk_loaded ⟨3000000, 1, [(0, []), (1000, []), (2000, []),
        (3000, []), (4000, []), (5000, []), (6000, []), (7000, [])],
        [8000], 1000, 8, []⟩ 8000 [(8001, "x")]).1.chunk_cache 8000 =
      some [(8001, "x")] ∧
    ∃ dropped,
      dropped ++ (on_chunk_loaded ⟨3000000, 1, [(0, []), (1000, []), (2000, []),
          (3000, []), (4000, []), (5000, []), (6000, []), (7000, [])],
          [8000], 1000, 8, []⟩ 8000 [(8001, "x")]).1.chunk_cache =
        dictInsert [(0, []), (1000, []), (2000, []), (3000, []), (4000, []),
          (5000, []), (6000, []), (7000, [])] 8000 [(8001, "x")] ∧
      8000 ∉ dropped.map Prod.fst :=
  eviction_bound ⟨3000000, 1, [(0, []), (1000, []), (2000, []), (3000, []),
      (4000, []), (5000, []), (6000, []), (7000, [])], [8000], 1000, 8, []⟩
    8000 [(8001, "x")] (by decide) (by decide)

/-- **C4.** If the selection moves from row A to row B before the detail task
of A completes, the task of A carries generation `g = detail_request_id + 1`
while the live generation is `g + 1`; the late signal of A (success or failure
alike) is discarded by the generation check, and only the result of B (or its
fallback/error) is applied to the detail pane. -/
theorem stale_result_discarded (s : DetailUiState) (aId bId : Nat)
    (aVal bVal : String) (outA outB : TransformOutcome) :
    (on_current_row_changed s (.loaded aId aVal)).2 =
      some (s.detail_request_id + 1, aId, aVal) ∧
    (on_current_row_changed (on_current_row_changed s (.loaded aId aVal)).1
        (.loaded bId bVal)).1.detail_request_id = s.detail_request_id + 2 ∧
    apply_detail_signal
        (on_current_row_changed (on_current_row_changed s (.loaded aId aVal)).1
          (.loaded bId bVal)).1
        (task_run (s.detail_request_id + 1) aVal outA) =
      (on_current_row_changed (on_current_row_changed s (.loaded aId aVal)).1
        (.loaded bId bVal)).1 ∧
    (apply_detail_signal
        (on_current_row_changed (on_current_row_changed s (.loaded aId aVal)).1
          (.loaded bId bVal)).1
        (task_run (s.detail_request_id + 2) bVal outB)).detail_text =
      expected_detail_text bVal outB := by
  refine ⟨rfl, rfl, ?_, ?_⟩
  · cases outA <;>
      simp [on_current_row_changed, apply_detail_signal, task_run,
        on_detail_ready, on_detail_failed]
  · cases outB <;>
      simp [on_current_row_changed, apply_detail_signal, task_run,
        on_detail_ready, on_detail_failed, expected_detail_text]

/-- **C8.** An unimplemented transform (`NotImplementedError`) degrades to the
raw row value delivered through `finished`; any other exception is converted
at the worker boundary into `failed(request_id, message)`, and
`_on_detail_failed` applies the user-visible error string exactly when the
generation tag still matches, discarding it otherwise. -/
theorem transform_error_policy (request_id : Nat) (row_value message : String)
    (s : DetailUiState) :
    task_run request_id row_value .notImplemented =
      .finished request_id row_value ∧
    task_run request_id row_value (.err message) =
      .failed request_id message ∧
    (request_id = s.detail_request_id →
      on_detail_failed s request_id message =
        { s with detail_text := DETAIL_ERROR_PREFIX ++ message }) ∧
    (request_id ≠ s.detail_request_id →
      on_detail_failed s request_id message = s) := by
  refine ⟨rfl, rfl, ?_, ?_⟩
  · intro h
    simp [on_detail_failed, h]
  · intro h
    simp [on_detail_failed, h]

/-- Witness for `transform_error_policy` at generation 3: the fallback signal
and the applied matching-generation error string. -/
theorem transform_error_policy_witness :
    task_run 3 "raw" TransformOutcome.notImplemented =
      DetailSignal.finished 3 "raw" ∧
    on_detail_failed ⟨3, "t"⟩ 3 "boom" =
      ⟨3, DETAIL_ERROR_PREFIX ++ "boom"⟩ :=
  ⟨(transform_error_policy 3 "raw" "boom" ⟨3, "t"⟩).1,
   (transform_error_policy 3 "raw" "boom" ⟨3, "t"⟩).2.2.1 rfl⟩

/-- Behaviour of the seeding loop: it appends exactly `rows_to_insert` rows to
the store, and the `executemany` batches sum to `rows_to_insert` with each
batch at most `BATCH_SIZE`. -/
theorem seed_loop_spec (supply : Nat → String) :
    ∀ (rows_to_insert : Nat) (store : List String),
      (∃ new, (seed_loop supply store rows_to_insert).1 = store ++ new ∧
        new.length = rows_to_insert) ∧
      (seed_loop supply store rows_to_insert).2.sum = rows_to_insert ∧
      ∀ b ∈ (seed_loop supply store rows_to_insert).2, b ≤ BATCH_SIZE := by
  intro r
  induction r using Nat.strong_induction_on with
  | _ r ih =>
    intro store
    rw [seed_loop]
    by_cases hr : r = 0
    · subst hr
      simp
    · have hchunk1 : 1 ≤ min BATCH_SIZE r := by
        simp only [BATCH_SIZE]
        omega
      have hdec : r - min BATCH_SIZE r < r := by omega
      obtain ⟨⟨new, hnew, hnewlen⟩, hsum, hbound⟩ :=
        ih (r - min BATCH_SIZE r) hdec
          (store ++ (List.range (min BATCH_SIZE r)).map
            (fun i => supply (store.length + i)))
      rw [if_neg hr]
      simp only
      refine ⟨⟨(List.range (min BATCH_SIZE r)).map
          (fun i => supply (store.length + i)) ++ new, ?_, ?_⟩, ?_, ?_⟩
      · rw [← List.append_assoc]
        exact hnew
      · simp [hnewlen]
      · simp [hsum]
      · intro b hb
        simp only [List.mem_cons] at hb
        cases hb with
        | inl h => subst h; exact Nat.min_le_left _ _
        | inr h => exact hbound b h

/-- **C7.** `ensure_database` is idempotent and batched: a store already
holding at least `target_rows` rows is left untouched (same contents, no
insert batches); a store holding fewer gains exactly
`target_rows - current_rows` appended rows, inserted in batches each of size
at most `BATCH_SIZE`, the batch sizes summing to the deficit. -/
theorem seeding_idempotent_and_batched (supply : Nat → String)
    (store : List String) (target_rows : Nat) :
    (target_rows ≤ store.length →
      ensure_database supply store target_rows = (store, [])) ∧
    (store.length < target_rows →
      (ensure_database supply store target_rows).1.length = target_rows ∧
      (∃ new, (ensure_database supply store target_rows).1 = store ++ new ∧
        new.length = target_rows - store.length) ∧
      (ensure_database supply store target_rows).2.sum =
        target_rows - store.length ∧
      ∀ b ∈ (ensure_database supply store target_rows).2, b ≤ BATCH_SIZE) := by
  constructor
  · intro h
    unfold ensure_database
    rw [if_pos h]
  · intro h
    unfold ensure_database
    rw [if_neg (by omega)]
    obtain ⟨⟨new, hnew, hnewlen⟩, hsum, hbound⟩ :=
      seed_loop_spec supply (target_rows - store.length) store
    refine ⟨?_, ⟨new, hnew, hnewlen⟩, hsum, hbound⟩
    rw [hnew]
    simp [hnewlen]
    omega

/-- Witness for `seeding_idempotent_and_batched`: a store of 2 rows with
target 2 is untouched; an empty store with target 3 ends with 3 rows and
batches summing to 3, each within `BATCH_SIZE`. -/
theorem seeding_idempotent_and_batched_witness :
    ensure_database (fun _ => "x") ["a", "b"] 2 = (["a", "b"], []) ∧
    ((ensure_database (fun _ => "x") [] 3).1.length = 3 ∧
      (∃ new, (ensure_database (fun _ => "x") [] 3).1 = [] ++ new ∧
        new.length = 3 - List.length ([] : List String)) ∧
      (ensure_database (fun _ => "x") [] 3).2.sum =
        3 - List.length ([] : List String) ∧
      ∀ b ∈ (ensure_database (fun _ => "x") [] 3).2, b ≤ BATCH_SIZE) :=
  ⟨(seeding_idempotent_and_batched (fun _ => "x") ["a", "b"] 2).1 (by decide),
   (seeding_idempotent_and_batched (fun _ => "x") [] 3).2 (by decide)⟩

theorem dictGet_map_self (rowsOf : Nat → List Record) :
    ∀ (l : List Nat) (k : Nat),
      dictGet (l.map (fun w => (w, rowsOf w))) k =
        if k ∈ l then some (rowsOf k) else none := by
  intro l
  induction l with
  | nil => intro k; simp [dictGet]
  | cons w ws ih =>
    intro k
    by_cases hk : k = w
    · subst hk
      simp [dictGet]
    · simp [dictGet, hk, ih]

/-- As long as the completed windows are fresh (not yet cached), pairwise
distinct, and fit in the remaining capacity, completing them simply appends
them to the insertion-ordered cache — no eviction fires. -/
theorem complete_all_cache_append (rowsOf : Nat → List Record) :
    ∀ (l : List Nat) (s : ModelState),
      (∀ w ∈ l, dictGet s.chunk_cache w = none) →
      l.Nodup →
      s.chunk_cache.length + l.length ≤ s.max_cached_chunks →
      (complete_all rowsOf s l).chunk_cache =
        s.chunk_cache ++ l.map (fun w => (w, rowsOf w)) := by
  intro l
  induction l with
  | nil =>
    intro s _ _ _
    simp [complete_all]
  | cons w ws ih =>
    intro s hfresh hnodup hcap
    have hw : dictGet s.chunk_cache w = none := hfresh w (by simp)
    have hins : dictInsert s.chunk_cache w (rowsOf w) =
        s.chunk_cache ++ [(w, rowsOf w)] :=
      dictInsert_of_get_none _ _ _ hw
    have hstep : (on_chunk_loaded s w (rowsOf w)).1.chunk_cache =
        s.chunk_cache ++ [(w, rowsOf w)] := by
      show evict_loop s.max_cached_chunks w
          (dictInsert s.chunk_cache w (rowsOf w)) = _
      rw [hins, evict_loop_of_length_le _ _ _ (by simp at hcap ⊢; omega)]
    have hmax : (on_chunk_loaded s w (rowsOf w)).1.max_cached_chunks =
        s.max_cached_chunks := rfl
    rw [complete_all, ih (on_chunk_loaded s w (rowsOf w)).1 ?_ hnodup.of_cons ?_]
    · rw [hstep, List.append_assoc]
      rfl
    · intro w2 hw2
      rw [hstep, dictGet_append, hfresh w2 (by simp [hw2])]
      have hne : ¬ w2 = w := by
        intro h
        subst h
        exact (List.nodup_cons.mp hnodup).1 hw2
      simp [dictGet, hne]
    · rw [hmax, hstep]
      simp at hcap ⊢
      omega

/-- **C5 (counterexample).** Completing 9 distinct windows (one more than the
capacity `_max_cached_chunks = 8`) in request order versus reverse order
leaves different final cache contents: window `0` is evicted in the first
order but resident in the second, because eviction is driven by insertion
order, which depends on completion order. -/
theorem out_of_order_completion_counterexample :
    dictGet (complete_all (fun _ => []) ⟨3000000, 1, [], [], 1000, 8, []⟩
        [0, 1000, 2000, 3000, 4000, 5000, 6000, 7000, 8000]).chunk_cache 0 ≠
    dictGet (complete_all (fun _ => []) ⟨3000000, 1, [], [], 1000, 8, []⟩
        [8000, 7000, 6000, 5000, 4000, 3000, 2000, 1000, 0]).chunk_cache 0 := by
  decide

/-- **C5 (amended).** For every set of distinct requested windows that fits in
the cache capacity alongside the windows already resident (in particular, at
most `_max_cached_chunks = 8` windows from an empty cache), completing their
fetches — each delivering the same rows for its window — in any order leaves
the cache with the same final `window_start → rows` mapping as completing them
in request order. -/
theorem out_of_order_completion (rowsOf : Nat → List Record)
    (s : ModelState) (l1 l2 : List Nat) (k : Nat)
    (hperm : l1.Perm l2) (hnodup : l1.Nodup)
    (hfresh : ∀ w ∈ l1, dictGet s.chunk_cache w = none)
    (hcap : s.chunk_cache.length + l1.length ≤ s.max_cached_chunks) :
    dictGet (complete_all rowsOf s l1).chunk_cache k =
      dictGet (complete_all rowsOf s l2).chunk_cache k := by
  rw [complete_all_cache_append rowsOf l1 s hfresh hnodup hcap,
    complete_all_cache_append rowsOf l2 s
      (fun w hw => hfresh w (hperm.mem_iff.mpr hw))
      (hperm.nodup_iff.mp hnodup)
      (by rw [← hperm.length_eq]; exact hcap),
    dictGet_append, dictGet_append, dictGet_map_self, dictGet_map_self]
  by_cases hk : k ∈ l1
  · rw [if_pos hk, if_pos (hperm.mem_iff.mp hk)]
  · rw [if_neg hk, if_neg (fun h => hk (hperm.mem_iff.mpr h))]

/-- Witness for `out_of_order_completion`: windows `0` and `1000` completed in
either order from an empty cache agree on the cached rows of window `0`. -/
theorem out_of_order_completion_witness :
    dictGet (complete_all (fun w => [(w + 1, "v")])
        ⟨3000000, 1, [], [], 1000, 8, []⟩ [0, 1000]).chunk_cache 0 =
      dictGet (complete_all (fun w => [(w + 1, "v")])
        ⟨3000000, 1, [], [], 1000, 8, []⟩ [1000, 0]).chunk_cache 0 :=
  out_of_order_completion (fun w => [(w + 1, "v")])
    ⟨3000000, 1, [], [], 1000, 8, []⟩ [0, 1000] [1000, 0] 0
    (by decide) (by decide) (by decide) (by decide)

theorem filter_le_range (s : Nat) :
    ∀ n : Nat, (List.range n).filter (fun i => decide (s ≤ i)) =
      List.range' s (n - s) := by
  intro n
  induction n with
  | zero => simp
  | succ n ih =>
    rw [List.range_succ, List.filter_append, ih]
    by_cases h : s ≤ n
    · have h1 : n + 1 - s = (n - s) + 1 := by omega
      have h2 : s + 1 * (n - s) = n := by omega
      rw [h1, List.range'_concat, h2]
      simp [h]
    · have h1 : n + 1 - s = 0 := by omega
      have h2 : n - s = 0 := by omega
      rw [h1, h2]
      simp [h]

/-- The keyset query on the densely-seeded table: starting at the id of
absolute row `start_row`, it returns exactly the next
`min limit (total - start_row)` records in ascending id order. -/
theorem sqlSelectRange_denseTable (first_id total start_row limit : Nat)
    (vals : Nat → String) :
    sqlSelectRange (denseTable first_id total vals) (first_id + start_row)
        limit =
      (List.range (min limit (total - start_row))).map
        (fun i => (first_id + (start_row + i),
          vals (first_id + (start_row + i)))) := by
  unfold sqlSelectRange denseTable
  rw [List.filter_map]
  rw [List.filter_congr (q := fun i => decide (start_row ≤ i)) ?_]
  · rw [filter_le_range, List.range'_eq_map_range, List.map_map]
    rw [List.mergeSort_of_sorted ?_]
    · rw [← List.map_take, List.take_range]
      rfl
    · rw [List.pairwise_map]
      refine (List.pairwise_lt_range _).imp ?_
      intro a b hab
      show decide (first_id + (start_row + a) ≤ first_id + (start_row + b)) =
        true
      exact decide_eq_true_eq.mpr (by omega)
  · intro i _
    show decide (first_id + start_row ≤ first_id + i) =
      decide (start_row ≤ i)
    exact decide_eq_decide.mpr (by omega)

theorem get_map_range {α : Type} (f : Nat → α) (n i : Nat)
    (h : i < ((List.range n).map f).length) :
    ((List.range n).map f).get ⟨i, h⟩ = f i := by
  rw [List.get_eq_getElem, List.getElem_map, List.getElem_range]

/-- The cached-hit path of `data` on the value column: when the owning window
is cached and the offset is within the loaded rows, the cell is the `value`
field of the record at that offset. -/
theorem data_cached_hit (s : ModelState) (row : Nat) (rows : List Record)
    (hrow : row < s.row_count)
    (hc : dictGet s.chunk_cache (chunk_start_of s.cache_size row) = some rows)
    (hoff : row - chunk_start_of s.cache_size row < rows.length) :
    (data s row 1).1 = some (CellValue.strVal
      (rows.get ⟨row - chunk_start_of s.cache_size row, hoff⟩).2) := by
  unfold data
  rw [if_neg (by omega)]
  simp only [hc]
  rw [dif_neg (by omega)]
  simp [recordCell]

/-- **C1.** The concrete scenario with `window_size = 1000`,
`total_rows = 3_000_000`, `first_key = 1`: a `data` request at position
`2_500_500` computes `window_start = 2_500_000` and requests
`(2_500_000, 1000)` from the worker; the keyset fetch of the worker uses
`start_key = 1 + 2_500_000 = 2_500_001` and returns exactly 1000 records with
keys `2_500_001 … 2_501_000` in ascending order; once that window is cached,
`data` at `(2_500_500, value column)` returns the value stored for key
`2_500_501`. -/
theorem concrete_scenario (vals : Nat → String) :
    chunk_start_of 1000 2500500 = 2500000 ∧
    (data ⟨3000000, 1, [], [], 1000, 8, []⟩ 2500500 1).1 = none ∧
    (data ⟨3000000, 1, [], [], 1000, 8, []⟩ 2500500 1).2.requests =
      [(2500000, 1000)] ∧
    load_chunk (denseTable 1 3000000 vals) 1 2500000 1000 =
      (2500000, sqlSelectRange (denseTable 1 3000000 vals) 2500001 1000) ∧
    (load_chunk (denseTable 1 3000000 vals) 1 2500000 1000).2.length = 1000 ∧
    (load_chunk (denseTable 1 3000000 vals) 1 2500000 1000).2.map Prod.fst =
      List.range' 2500001 1000 ∧
    (data (on_chunk_loaded (data ⟨3000000, 1, [], [], 1000, 8, []⟩ 2500500 1).2
        2500000
        (load_chunk (denseTable 1 3000000 vals) 1 2500000 1000).2).1
      2500500 1).1 = some (CellValue.strVal (vals 2500501)) := by
  have hrows : (load_chunk (denseTable 1 3000000 vals) 1 2500000 1000).2 =
      (List.range 1000).map (fun i => (2500001 + i, vals (2500001 + i))) := by
    show sqlSelectRange (denseTable 1 3000000 vals) (1 + 2500000) 1000 = _
    rw [sqlSelectRange_denseTable 1 3000000 2500000 1000 vals]
    have hmin : min 1000 (3000000 - 2500000) = 1000 := by norm_num
    rw [hmin]
    refine List.map_congr_left ?_
    intro i _
    have h : 1 + (2500000 + i) = 2500001 + i := by omega
    rw [h]
  have hpend : (data ⟨3000000, 1, [], [], 1000, 8, []⟩ 2500500 1).2 =
      ⟨3000000, 1, [], [2500000], 1000, 8, [(2500000, 1000)]⟩ := by decide
  refine ⟨by decide, by decide, by decide, rfl, ?_, ?_, ?_⟩
  · rw [hrows]
    simp
  · rw [hrows, List.map_map, List.range'_eq_map_range]
    rfl
  · rw [hpend, hrows]
    have hcs : chunk_start_of 1000 2500500 = 2500000 := by decide
    have hlenR : ((List.range 1000).map
        (fun i => (2500001 + i, vals (2500001 + i)))).length = 1000 := by simp
    have hs1 : (on_chunk_loaded
        ⟨3000000, 1, [], [2500000], 1000, 8, [(2500000, 1000)]⟩ 2500000
        ((List.range 1000).map
          (fun i => (2500001 + i, vals (2500001 + i))))).1 =
        ⟨3000000, 1, [(2500000, (List.range 1000).map
          (fun i => (2500001 + i, vals (2500001 + i))))], [], 1000, 8,
          [(2500000, 1000)]⟩ := rfl
    rw [hs1]
    have hget : dictGet ([(2500000, (List.range 1000).map
          (fun i => (2500001 + i, vals (2500001 + i))))] :
        List (Nat × List Record)) (chunk_start_of 1000 2500500) =
        some ((List.range 1000).map
          (fun i => (2500001 + i, vals (2500001 + i)))) := by
      rw [hcs]
      simp [dictGet]
    have hoff : 2500500 - chunk_start_of 1000 2500500 <
        ((List.range 1000).map
          (fun i => (2500001 + i, vals (2500001 + i)))).length := by
      rw [hcs, hlenR]
      norm_num
    rw [data_cached_hit ⟨3000000, 1, [(2500000, (List.range 1000).map
          (fun i => (2500001 + i, vals (2500001 + i))))], [], 1000, 8,
          [(2500000, 1000)]⟩ 2500500
        ((List.range 1000).map (fun i => (2500001 + i, vals (2500001 + i))))
        (by norm_num) hget hoff]
    rw [get_map_range]
    rw [hcs]

end MillionRows
